import Mathlib

/-!
# Verification of the nlb layer-4 load balancer

Shallow embedding of the backend-pool selection algorithm, the client-IP
hashing helpers, the UDP health probe, and the lifecycle (Start/Shutdown)
state machines of the `nlb` load balancer, together with proofs of the
specification claims about them.

Strings from the Go side are modelled as `List Char`; byte slices as
`List Nat` (each entry < 256); Go's `uint64` arithmetic is `Nat` arithmetic
with explicit `% 2 ^ 64`; Go run-time panics are explicit `Except` errors.
-/

namespace NLB

/-- A Go run-time panic relevant to this program. -/
inductive RuntimeFault where
  | integerDivideByZero
deriving DecidableEq, Repr

/-! ## FNV-1a hashing (`hash/fnv`, 32-bit) -/

/-- The 32-bit FNV offset basis used by `fnv.New32a()`. -/
def fnvOffsetBasis32 : Nat := 2166136261

/-- The 32-bit FNV prime. -/
def fnvPrime32 : Nat := 16777619

/-- `fnv.New32a()` followed by `Write(bytes)` and `Sum32()`: for each byte,
XOR it into the state and multiply by the FNV prime modulo `2 ^ 32`. -/
def fnv1a32 (bytes : List Nat) : Nat :=
  bytes.foldl (fun h b => ((h ^^^ b) * fnvPrime32) % 2 ^ 32) fnvOffsetBasis32

/-! ## `net.ParseIP`

`net.ParseIP` (via `netip.ParseAddr`) scans the input for the first `'.'`,
`':'` or `'%'`: a `'.'` dispatches to the dotted-quad IPv4 parser, a `':'`
to the IPv6 parser, a `'%'` (or no special character at all) is a parse
failure.  A successful parse is returned as the 16-byte form (`As16`), so
an IPv4 address comes back as the IPv4-in-IPv6 mapped 16 bytes. -/

/-- `netip.parseIPv4`'s scanning loop: `val` is the octet being accumulated,
`digLen` the number of digits seen in it, `fields` the completed octets.
Leading zeros, octets over 255, a dot at the start/end or after another dot,
more than four octets, fewer than four octets, and any foreign character are
all rejected, exactly as in the Go source. -/
def parseIPv4Loop : List Char → Nat → Nat → List Nat → Option (List Nat)
  | [], val, _digLen, fields =>
    if fields.length < 3 then none else some (fields ++ [val])
  | c :: rest, val, digLen, fields =>
    if '0' ≤ c ∧ c ≤ '9' then
      if digLen = 1 ∧ val = 0 then none
      else
        let v := val * 10 + (c.toNat - '0'.toNat)
        if v > 255 then none
        else parseIPv4Loop rest v (digLen + 1) fields
    else if c = '.' then
      if digLen = 0 then none
      else if rest.isEmpty then none
      else if fields.length = 3 then none
      else parseIPv4Loop rest 0 0 (fields ++ [val])
    else none

/-- `netip.parseIPv4`: four dot-separated decimal octets. -/
def parseIPv4 (s : List Char) : Option (List Nat) :=
  parseIPv4Loop s 0 0 []

/-- The hexadecimal value of a character, if it is a hex digit. -/
def hexVal (c : Char) : Option Nat :=
  if '0' ≤ c ∧ c ≤ '9' then some (c.toNat - '0'.toNat)
  else if 'a' ≤ c ∧ c ≤ 'f' then some (c.toNat - 'a'.toNat + 10)
  else if 'A' ≤ c ∧ c ≤ 'F' then some (c.toNat - 'A'.toNat + 10)
  else none

/-- The leading hexadecimal group of an IPv6 field: accumulated value, number
of digits consumed, and the rest of the input.  A fifth hex digit is an error
(`none`), as in `netip.parseIPv6`. -/
def parseHexGroup : List Char → Nat → Nat → Option (Nat × Nat × List Char)
  | [], acc, off => some (acc, off, [])
  | c :: rest, acc, off =>
    match hexVal c with
    | some v => if off > 3 then none else parseHexGroup rest (acc * 16 + v) (off + 1)
    | none => some (acc, off, c :: rest)

/-- The main loop of `netip.parseIPv6`: `fuel` bounds the number of 16-bit
groups still possible (each iteration fills two bytes), `i` is the number of
bytes already filled, `ell` the byte position of a `::` ellipsis if one was
seen, `ip` the bytes so far.  Returns the collected bytes and ellipsis
position; the caller expands the ellipsis.  A trailing dotted-quad is parsed
from the full remaining input, as in the Go source. -/
def parseIPv6Main : Nat → List Char → Nat → Option Nat → List Nat →
    Option (List Nat × Option Nat)
  | 0, s, _i, ell, ip => if s.isEmpty then some (ip, ell) else none
  | fuel + 1, s, i, ell, ip =>
    match parseHexGroup s 0 0 with
    | none => none
    | some (acc, off, rest) =>
      if off = 0 then none
      else
        match rest with
        | '.' :: _ =>
          if ell.isNone ∧ i ≠ 12 then none
          else if i + 4 > 16 then none
          else
            match parseIPv4 s with
            | none => none
            | some v4 => some (ip ++ v4, ell)
        | [] => some (ip ++ [acc / 256 % 256, acc % 256], ell)
        | ':' :: rest1 =>
          let ip' := ip ++ [acc / 256 % 256, acc % 256]
          match rest1 with
          | [] => none
          | ':' :: rest2 =>
            if ell.isSome then none
            else if rest2.isEmpty then some (ip', some (i + 2))
            else parseIPv6Main fuel rest2 (i + 2) (some (i + 2)) ip'
          | _ => parseIPv6Main fuel rest1 (i + 2) ell ip'
        | _ => none

/-- Expansion of a `::` ellipsis: fewer than 16 bytes require an ellipsis
position, where the missing zero bytes are inserted; a full 16 bytes with an
ellipsis is an error (the ellipsis must stand for at least one group). -/
def expandEllipsis (ip : List Nat) (ell : Option Nat) : Option (List Nat) :=
  if ip.length < 16 then
    match ell with
    | none => none
    | some e => some (ip.take e ++ List.replicate (16 - ip.length) 0 ++ ip.drop e)
  else
    match ell with
    | some _ => none
    | none => some ip

/-- `netip.parseIPv6` on a zone-free input: handle a leading `::`, run the
main loop, expand the ellipsis. -/
def parseIPv6NoZone (s : List Char) : Option (List Nat) :=
  match s with
  | ':' :: ':' :: rest =>
    if rest.isEmpty then some (List.replicate 16 0)
    else
      match parseIPv6Main 8 rest 0 (some 0) [] with
      | none => none
      | some (ip, ell) => expandEllipsis ip ell
  | _ =>
    match parseIPv6Main 8 s 0 none [] with
    | none => none
    | some (ip, ell) => expandEllipsis ip ell

/-- The IPv6 path of `net.ParseIP`: `netip.parseIPv6` splits a zone off at
the first `'%'` (an empty zone is a parse error) and `net.ParseIP` rejects
any address carrying a zone, so an input containing `'%'` always yields nil
here; otherwise parse the zone-free literal. -/
def parseIPv6ForParseIP (s : List Char) : Option (List Nat) :=
  if s.contains '%' then none else parseIPv6NoZone s

/-- The 16-byte IPv4-in-IPv6 mapped form (`net.IPv4` / `As16`). -/
def v4In16 (b : List Nat) : List Nat :=
  [0, 0, 0, 0, 0, 0, 0, 0, 0, 0, 255, 255] ++ b

/-- The dispatch scan of `netip.ParseAddr`: walk `t` (a suffix of the full
input `s`) looking for the first special character. -/
def parseIPDispatch (s : List Char) : List Char → Option (List Nat)
  | [] => none
  | c :: cs =>
    if c = '.' then (parseIPv4 s).map v4In16
    else if c = ':' then parseIPv6ForParseIP s
    else if c = '%' then none
    else parseIPDispatch s cs

/-- `net.ParseIP`, returning the 16-byte form on success and `none` (Go
`nil`) on failure. -/
def parseIP (s : List Char) : Option (List Nat) :=
  parseIPDispatch s s

/-! ## The source-IP helpers (`getIpFromAddr` / `getIpfromConn` / `hashIp`) -/

/-- `getIpFromAddr` (and the identical `getIpfromConn`):
`net.ParseIP(strings.Split(addr.String(), ":")[0])`.  The first element of
`strings.Split(s, ":")` is the prefix of `s` before its first `':'`. -/
def getIpFromAddr (addr : List Char) : Option (List Nat) :=
  parseIP (addr.takeWhile (fun c => c ≠ ':'))

/-- `hashIp`: `h := fnv.New32a(); h.Write(ip); int(h.Sum32())`.  Writing a
nil IP writes no bytes, so a nil IP hashes to the offset basis.  On a 64-bit
platform `int(uint32)` is the plain non-negative value. -/
def hashIp (ip : Option (List Nat)) : Nat :=
  fnv1a32 (ip.getD [])

/-! ## The backend pool and `Next` -/

/-- A `Backend`: its address and its health flag (`isHealthy`, read and
written through `Healthy`/`SetHealthy`). -/
structure Backend where
  urlHost : List Char
  isHealthy : Bool
deriving DecidableEq, Repr

/-- The selection-relevant state of `BaseServerPool` (and of the structurally
identical `ServerPool` / `TCPServerPool`): the ordered backends, the `uint64`
round-robin cursor, and the sticky-sessions flag. -/
structure BaseServerPool where
  backends : List Backend
  current : Nat
  stickySessions : Bool
deriving DecidableEq, Repr

/-- The round-robin loop of `Next`:
`for i := 0; i < len; i++ { current = (current+1) % uint64(len); if healthy return }`.
`fuel` is the remaining iteration count (starting at `len(backends)`), `cur`
the cursor value.  Returns the selected index (if any) and the final cursor.
The `bs.length = 0` guard is unreachable: the loop body only runs when the
initial fuel `bs.length` is positive. -/
def rrLoop (bs : List Backend) : Nat → Nat → Option Nat × Nat
  | cur, 0 => (none, cur)
  | cur, fuel + 1 =>
    if h : bs.length = 0 then (none, cur)
    else
      if (bs.get ⟨((cur + 1) % 2 ^ 64) % bs.length,
            Nat.mod_lt _ (Nat.pos_of_ne_zero h)⟩).isHealthy then
        (some (((cur + 1) % 2 ^ 64) % bs.length), ((cur + 1) % 2 ^ 64) % bs.length)
      else rrLoop bs (((cur + 1) % 2 ^ 64) % bs.length) fuel

/-- The loop of `findNextHealthyBackend`:
`for i := 0; i < len; i++ { idx := (start+i) % len; if healthy return }`.
The `bs.length = 0` guard is unreachable for the same reason as in
`rrLoop`. -/
def findLoop (bs : List Backend) (start : Nat) : Nat → Nat → Option Nat
  | _i, 0 => none
  | i, fuel + 1 =>
    if h : bs.length = 0 then none
    else
      if (bs.get ⟨(start + i) % bs.length,
            Nat.mod_lt _ (Nat.pos_of_ne_zero h)⟩).isHealthy then
        some ((start + i) % bs.length)
      else findLoop bs start (i + 1) fuel

/-- `findNextHealthyBackend`: scan forward from `start`, wrapping modulo the
pool size, for at most `len(backends)` steps; return the first healthy index. -/
def findNextHealthyBackend (bs : List Backend) (start : Nat) : Option Nat :=
  findLoop bs start 0 bs.length

/-- `BaseServerPool.Next` (the bodies of `(*BaseServerPool).Next`,
`(*ServerPool).Next` and `(*TCPServerPool).Next` are identical): in sticky
mode, hash the client IP and take it modulo the pool size — with an empty
pool this is Go's integer division by zero, a run-time panic — then return
the hashed backend if healthy, else probe forward; in round-robin mode,
advance the cursor and scan.  Returns the index of the selected backend
(`none` = Go `nil`) and the pool after the call. -/
def BaseServerPool.Next (p : BaseServerPool) (addr : List Char) :
    Except RuntimeFault (Option Nat × BaseServerPool) :=
  if p.stickySessions then
    if h0 : p.backends.length = 0 then .error .integerDivideByZero
    else
      if (p.backends.get ⟨hashIp (getIpFromAddr addr) % p.backends.length,
            Nat.mod_lt _ (Nat.pos_of_ne_zero h0)⟩).isHealthy then
        .ok (some (hashIp (getIpFromAddr addr) % p.backends.length), p)
      else
        .ok (findNextHealthyBackend p.backends
              (hashIp (getIpFromAddr addr) % p.backends.length), p)
  else
    .ok ((rrLoop p.backends p.current p.backends.length).1,
      { p with current := (rrLoop p.backends p.current p.backends.length).2 })

/-- `n` consecutive calls to `Next` with the same client address, collecting
each call's selection and threading the pool state.  A panic aborts the
sequence. -/
def nextCalls : BaseServerPool → List Char → Nat → List (Option Nat) × BaseServerPool
  | p, _, 0 => ([], p)
  | p, addr, n + 1 =>
    match p.Next addr with
    | .ok (r, p') =>
      let rest := nextCalls p' addr n
      (r :: rest.1, rest.2)
    | .error _ => ([], p)

/-! ## Properties of the selection scans -/

/-- Index `i` of `bs` is in range and holds a healthy backend. -/
def healthyIdx (bs : List Backend) (i : Nat) : Prop :=
  ∃ h : i < bs.length, (bs.get ⟨i, h⟩).isHealthy = true

theorem healthyIdx_congr {bs : List Backend} {i j : Nat} (h : i = j) :
    healthyIdx bs i → healthyIdx bs j := fun hx => h ▸ hx

theorem not_healthyIdx_of_get {bs : List Backend} {i : Nat} (h : i < bs.length)
    (hb : ¬(bs.get ⟨i, h⟩).isHealthy = true) : ¬healthyIdx bs i := by
  rintro ⟨h', hh⟩
  exact hb hh

theorem findLoop_isSome_healthy (bs : List Backend) (start : Nat) :
    ∀ fuel i idx, findLoop bs start i fuel = some idx → healthyIdx bs idx := by
  intro fuel
  induction fuel with
  | zero => intro i idx h; simp [findLoop] at h
  | succ f ih =>
    intro i idx h
    by_cases h0 : bs.length = 0
    · simp [findLoop, h0] at h
    · rw [findLoop, dif_neg h0] at h
      by_cases hb : (bs.get ⟨(start + i) % bs.length,
          Nat.mod_lt _ (Nat.pos_of_ne_zero h0)⟩).isHealthy
      · rw [if_pos hb] at h
        exact Option.some_injective _ h ▸ ⟨Nat.mod_lt _ (Nat.pos_of_ne_zero h0), hb⟩
      · rw [if_neg hb] at h
        exact ih (i + 1) idx h

theorem findLoop_none_of_all_unhealthy (bs : List Backend) (start : Nat)
    (hall : ∀ b ∈ bs, b.isHealthy = false) :
    ∀ fuel i, findLoop bs start i fuel = none := by
  intro fuel
  induction fuel with
  | zero => intro i; rfl
  | succ f ih =>
    intro i
    by_cases h0 : bs.length = 0
    · rw [findLoop, dif_pos h0]
    · have hm := hall _ (List.get_mem bs ((start + i) % bs.length)
        (Nat.mod_lt _ (Nat.pos_of_ne_zero h0)))
      rw [findLoop, dif_neg h0, if_neg (by rw [hm]; simp), ih (i + 1)]

theorem findLoop_finds (bs : List Backend) (start : Nat) :
    ∀ fuel i d, d < fuel → healthyIdx bs ((start + i + d) % bs.length) →
      ∃ idx, findLoop bs start i fuel = some idx ∧ healthyIdx bs idx := by
  intro fuel
  induction fuel with
  | zero => intro i d hd; omega
  | succ f ih =>
    intro i d hd hh
    have h0 : bs.length ≠ 0 := by
      rcases hh with ⟨hlt, -⟩; omega
    have hcur : (start + i) % bs.length < bs.length :=
      Nat.mod_lt _ (Nat.pos_of_ne_zero h0)
    by_cases hb : (bs.get ⟨(start + i) % bs.length, hcur⟩).isHealthy
    · exact ⟨(start + i) % bs.length,
        by rw [findLoop, dif_neg h0, if_pos hb], ⟨hcur, hb⟩⟩
    · rcases Nat.eq_zero_or_pos d with hd0 | hdpos
      · subst hd0
        exact absurd (healthyIdx_congr (by rw [Nat.add_zero]) hh)
          (not_healthyIdx_of_get hcur hb)
      · have hstep : (start + i + d) % bs.length = (start + (i + 1) + (d - 1)) % bs.length := by
          congr 1
          omega
        obtain ⟨idx, hfind, hhidx⟩ := ih (i + 1) (d - 1) (by omega) (healthyIdx_congr hstep hh)
        exact ⟨idx, by rw [findLoop, dif_neg h0, if_neg hb]; exact hfind, hhidx⟩

theorem exists_offset {len s j : Nat} (hs : s < len) (hj : j < len) :
    ∃ d, d < len ∧ (s + d) % len = j := by
  rcases le_or_lt s j with h | h
  · refine ⟨j - s, by omega, ?_⟩
    have : s + (j - s) = j := by omega
    rw [this]
    exact Nat.mod_eq_of_lt hj
  · refine ⟨j + len - s, by omega, ?_⟩
    have : s + (j + len - s) = j + len := by omega
    rw [this, Nat.add_mod_right]
    exact Nat.mod_eq_of_lt hj

theorem exists_step {len c j : Nat} (hc : c < len) (hj : j < len) (hne : j ≠ c) :
    ∃ t, 1 ≤ t ∧ t ≤ len - 1 ∧ (c + t) % len = j := by
  rcases Nat.lt_or_ge c j with h | h
  · refine ⟨j - c, by omega, by omega, ?_⟩
    have : c + (j - c) = j := by omega
    rw [this]
    exact Nat.mod_eq_of_lt hj
  · have hlt : j < c := by omega
    refine ⟨j + len - c, by omega, by omega, ?_⟩
    have : c + (j + len - c) = j + len := by omega
    rw [this, Nat.add_mod_right]
    exact Nat.mod_eq_of_lt hj

theorem rrLoop_fst_some (bs : List Backend) :
    ∀ fuel cur i c, rrLoop bs cur fuel = (some i, c) → healthyIdx bs i ∧ c = i := by
  intro fuel
  induction fuel with
  | zero => intro cur i c h; simp [rrLoop] at h
  | succ f ih =>
    intro cur i c h
    by_cases h0 : bs.length = 0
    · simp [rrLoop, h0] at h
    · rw [rrLoop, dif_neg h0] at h
      by_cases hb : (bs.get ⟨((cur + 1) % 2 ^ 64) % bs.length,
          Nat.mod_lt _ (Nat.pos_of_ne_zero h0)⟩).isHealthy
      · rw [if_pos hb] at h
        have h1 : ((cur + 1) % 2 ^ 64) % bs.length = i :=
          Option.some_injective _ (congrArg Prod.fst h)
        have h2 : ((cur + 1) % 2 ^ 64) % bs.length = c := congrArg Prod.snd h
        subst h1
        exact ⟨⟨Nat.mod_lt _ (Nat.pos_of_ne_zero h0), hb⟩, h2.symm⟩
      · rw [if_neg hb] at h
        exact ih _ i c h

theorem rrLoop_fst_none (bs : List Backend)
    (hall : ∀ b ∈ bs, b.isHealthy = false) :
    ∀ fuel cur, (rrLoop bs cur fuel).1 = none := by
  intro fuel
  induction fuel with
  | zero => intro cur; rfl
  | succ f ih =>
    intro cur
    by_cases h0 : bs.length = 0
    · rw [rrLoop, dif_pos h0]
    · have hm := hall _ (List.get_mem bs (((cur + 1) % 2 ^ 64) % bs.length)
        (Nat.mod_lt _ (Nat.pos_of_ne_zero h0)))
      rw [rrLoop, dif_neg h0, if_neg (by rw [hm]; simp), ih]

theorem rrLoop_finds (bs : List Backend) (hlt : bs.length < 2 ^ 64) :
    ∀ fuel cur t, cur < bs.length → 1 ≤ t → t ≤ fuel →
      healthyIdx bs ((cur + t) % bs.length) →
      ∃ i, rrLoop bs cur fuel = (some i, i) ∧ healthyIdx bs i := by
  intro fuel
  induction fuel with
  | zero => intro cur t _ ht1 ht2; omega
  | succ f ih =>
    intro cur t hcur ht1 ht2 hh
    have h0 : bs.length ≠ 0 := by omega
    have hwrap : (cur + 1) % 2 ^ 64 = cur + 1 := Nat.mod_eq_of_lt (by omega)
    have hcur1 : ((cur + 1) % 2 ^ 64) % bs.length < bs.length :=
      Nat.mod_lt _ (Nat.pos_of_ne_zero h0)
    by_cases hb : (bs.get ⟨((cur + 1) % 2 ^ 64) % bs.length, hcur1⟩).isHealthy
    · exact ⟨((cur + 1) % 2 ^ 64) % bs.length,
        by rw [rrLoop, dif_neg h0, if_pos hb], ⟨hcur1, hb⟩⟩
    · rcases Nat.eq_or_lt_of_le ht1 with ht1' | ht2'
      · exfalso
        refine not_healthyIdx_of_get hcur1 hb (healthyIdx_congr ?_ hh)
        rw [hwrap]
        congr 1
        omega
      · have hmod : (cur + t) % bs.length
            = (((cur + 1) % 2 ^ 64) % bs.length + (t - 1)) % bs.length := by
          rw [hwrap, Nat.mod_add_mod]
          congr 1
          omega
        obtain ⟨i, hrr, hhi⟩ := ih (((cur + 1) % 2 ^ 64) % bs.length) (t - 1)
          hcur1 (by omega) (by omega) (healthyIdx_congr hmod hh)
        exact ⟨i, by rw [rrLoop, dif_neg h0, if_neg hb]; exact hrr, hhi⟩

theorem rrLoop_top_finds (bs : List Backend) (hpos : 0 < bs.length)
    (hlt : bs.length < 2 ^ 64) (hex : ∃ j, healthyIdx bs j) (cur : Nat) :
    ∃ i, rrLoop bs cur bs.length = (some i, i) ∧ healthyIdx bs i := by
  obtain ⟨f, hf⟩ : ∃ f, bs.length = f + 1 := ⟨bs.length - 1, by omega⟩
  have h0 : bs.length ≠ 0 := by omega
  have hcur1 : ((cur + 1) % 2 ^ 64) % bs.length < bs.length :=
    Nat.mod_lt _ (Nat.pos_of_ne_zero h0)
  rw [hf]
  by_cases hb : (bs.get ⟨((cur + 1) % 2 ^ 64) % bs.length, hcur1⟩).isHealthy
  · exact ⟨((cur + 1) % 2 ^ 64) % bs.length,
      by rw [rrLoop, dif_neg h0, if_pos hb], ⟨hcur1, hb⟩⟩
  · obtain ⟨j, hjlt, hjh⟩ := hex
    have hne : j ≠ ((cur + 1) % 2 ^ 64) % bs.length := by
      intro he
      subst he
      exact hb hjh
    obtain ⟨t, ht1, ht2, htj⟩ := exists_step hcur1 hjlt hne
    obtain ⟨i, hrr, hhi⟩ := rrLoop_finds bs hlt f (((cur + 1) % 2 ^ 64) % bs.length) t
      hcur1 ht1 (by omega) (by rw [htj]; exact ⟨hjlt, hjh⟩)
    exact ⟨i, by rw [rrLoop, dif_neg h0, if_neg hb]; exact hrr, hhi⟩

theorem exists_healthyIdx {bs : List Backend} (h : ∃ b ∈ bs, b.isHealthy = true) :
    ∃ j, healthyIdx bs j := by
  obtain ⟨b, hmem, hh⟩ := h
  obtain ⟨⟨j, hjlt⟩, hn⟩ := List.mem_iff_get.mp hmem
  exact ⟨j, hjlt, by rw [hn]; exact hh⟩

/-! ## Claim C1: `Next` returns a healthy backend iff one exists -/

/-- **C1**: for every pool with at least one backend (of Go-representable
length), `Next` terminates with an ordinary result; it returns a backend
whose health flag is true whenever at least one backend's health flag is
true, and returns `none` (Go `nil`, "none available") when every backend's
health flag is false — in both round-robin and sticky mode. -/
theorem next_selects_healthy (p : BaseServerPool) (addr : List Char)
    (hne : p.backends ≠ []) (hlt : p.backends.length < 2 ^ 64) :
    ∃ r p', p.Next addr = .ok (r, p') ∧
      ((∃ b ∈ p.backends, b.isHealthy = true) →
        ∃ i, r = some i ∧ healthyIdx p.backends i) ∧
      ((∀ b ∈ p.backends, b.isHealthy = false) → r = none) := by
  have h0 : p.backends.length ≠ 0 := fun hl => hne (List.length_eq_zero.mp hl)
  by_cases hs : p.stickySessions = true
  · unfold BaseServerPool.Next
    rw [if_pos hs, dif_neg h0]
    have hidx : hashIp (getIpFromAddr addr) % p.backends.length < p.backends.length :=
      Nat.mod_lt _ (Nat.pos_of_ne_zero h0)
    by_cases hb : (p.backends.get ⟨hashIp (getIpFromAddr addr) % p.backends.length,
        Nat.mod_lt _ (Nat.pos_of_ne_zero h0)⟩).isHealthy
    · rw [if_pos hb]
      refine ⟨_, _, rfl, fun _ => ⟨_, rfl, hidx, hb⟩, fun hall => ?_⟩
      have hf := hall _ (List.get_mem p.backends _ hidx)
      rw [hf] at hb
      simp at hb
    · rw [if_neg hb]
      refine ⟨_, _, rfl, fun hex => ?_, fun hall => ?_⟩
      · obtain ⟨j, hjlt, hjh⟩ := exists_healthyIdx hex
        obtain ⟨d, hd, hdj⟩ := exists_offset hidx hjlt
        have hdj' : (hashIp (getIpFromAddr addr) % p.backends.length + 0 + d)
            % p.backends.length = j := by
          rw [show hashIp (getIpFromAddr addr) % p.backends.length + 0 + d
            = hashIp (getIpFromAddr addr) % p.backends.length + d by omega]
          exact hdj
        obtain ⟨idx, hfind, hhidx⟩ := findLoop_finds p.backends _ p.backends.length 0 d hd
          (healthyIdx_congr hdj'.symm ⟨hjlt, hjh⟩)
        exact ⟨idx, hfind, hhidx⟩
      · exact findLoop_none_of_all_unhealthy p.backends _ hall p.backends.length 0
  · unfold BaseServerPool.Next
    rw [if_neg hs]
    refine ⟨_, _, rfl, fun hex => ?_, fun hall => ?_⟩
    · obtain ⟨i, hrr, hhi⟩ := rrLoop_top_finds p.backends (Nat.pos_of_ne_zero h0) hlt
        (exists_healthyIdx hex) p.current
      exact ⟨i, by rw [hrr], hhi⟩
    · exact rrLoop_fst_none p.backends hall _ _

/-- Witness for C1: a concrete two-backend sticky pool with exactly one
healthy backend. -/
def c1Pool : BaseServerPool :=
  { backends := [{ urlHost := "localhost:8080".toList, isHealthy := false },
                 { urlHost := "localhost:8081".toList, isHealthy := true }],
    current := 0, stickySessions := true }

theorem next_selects_healthy_witness :
    c1Pool.backends ≠ [] ∧ c1Pool.backends.length < 2 ^ 64 ∧
    (∃ r p', c1Pool.Next "192.168.1.100:5678".toList = .ok (r, p') ∧
      ((∃ b ∈ c1Pool.backends, b.isHealthy = true) →
        ∃ i, r = some i ∧ healthyIdx c1Pool.backends i) ∧
      ((∀ b ∈ c1Pool.backends, b.isHealthy = false) → r = none)) :=
  ⟨by decide, by decide,
    next_selects_healthy c1Pool "192.168.1.100:5678".toList (by decide) (by decide)⟩

/-! ## Claim C2: round-robin fairness over all-healthy pools -/

theorem rrLoop_all_healthy_step (bs : List Backend) (hlt : bs.length < 2 ^ 64)
    (hall : ∀ b ∈ bs, b.isHealthy = true) {c : Nat} (hc : c < bs.length) (f : Nat) :
    rrLoop bs c (f + 1) = (some ((c + 1) % bs.length), (c + 1) % bs.length) := by
  have h0 : bs.length ≠ 0 := by omega
  have hwrap : (c + 1) % 2 ^ 64 = c + 1 := Nat.mod_eq_of_lt (by omega)
  have hb : (bs.get ⟨((c + 1) % 2 ^ 64) % bs.length,
      Nat.mod_lt _ (Nat.pos_of_ne_zero h0)⟩).isHealthy = true :=
    hall _ (List.get_mem bs _ _)
  rw [rrLoop, dif_neg h0, if_pos hb, hwrap]

theorem next_all_healthy (bs : List Backend) (addr : List Char)
    (hlt : bs.length < 2 ^ 64) (hall : ∀ b ∈ bs, b.isHealthy = true)
    {c : Nat} (hc : c < bs.length) :
    BaseServerPool.Next { backends := bs, current := c, stickySessions := false } addr =
      .ok (some ((c + 1) % bs.length),
        { backends := bs, current := (c + 1) % bs.length, stickySessions := false }) := by
  have hstep := rrLoop_all_healthy_step bs hlt hall hc (bs.length - 1)
  have hf : bs.length - 1 + 1 = bs.length := by omega
  rw [hf] at hstep
  simp [BaseServerPool.Next, hstep]

theorem nextCalls_all_healthy (bs : List Backend) (addr : List Char)
    (hlt : bs.length < 2 ^ 64) (hall : ∀ b ∈ bs, b.isHealthy = true) :
    ∀ n c, c < bs.length →
      (nextCalls { backends := bs, current := c, stickySessions := false } addr n).1 =
        (List.range n).map (fun k => some ((c + k + 1) % bs.length)) := by
  intro n
  induction n with
  | zero => intro c _; rfl
  | succ n ih =>
    intro c hc
    have hc' : (c + 1) % bs.length < bs.length := Nat.mod_lt _ (by omega)
    rw [nextCalls, next_all_healthy bs addr hlt hall hc]
    simp only [ih ((c + 1) % bs.length) hc']
    rw [List.range_succ_eq_map, List.map_cons, List.map_map]
    have hfun : (fun k => some (((c + 1) % bs.length + k + 1) % bs.length))
        = ((fun k => some ((c + k + 1) % bs.length)) ∘ Nat.succ) := by
      funext k
      simp only [Function.comp_apply, Option.some.injEq]
      show ((c + 1) % bs.length + (k + 1)) % bs.length = (c + (k + 1) + 1) % bs.length
      rw [Nat.mod_add_mod]
      congr 1
      omega
    rw [hfun]

/-- **C2**: for a pool of `N` all-healthy backends with sticky mode disabled
and the cursor starting at `0`, the `N` consecutive calls to `Next` return
the indices `1 % N, 2 % N, …, N % N` — each backend exactly once, in
insertion order, the first call returning index `1 % N` because the cursor
advances by one modulo `N` before being read on every call. -/
theorem next_round_robin_order (bs : List Backend) (addr : List Char)
    (hall : ∀ b ∈ bs, b.isHealthy = true) (hpos : 0 < bs.length)
    (hlt : bs.length < 2 ^ 64) :
    (nextCalls { backends := bs, current := 0, stickySessions := false } addr bs.length).1 =
      (List.range bs.length).map (fun k => some ((k + 1) % bs.length)) := by
  rw [nextCalls_all_healthy bs addr hlt hall bs.length 0 hpos]
  congr 1
  funext k
  congr 2
  omega

/-- Witness for C2: a concrete three-backend all-healthy pool. -/
def c2Pool : BaseServerPool :=
  { backends := [{ urlHost := "localhost:8080".toList, isHealthy := true },
                 { urlHost := "localhost:8081".toList, isHealthy := true },
                 { urlHost := "localhost:8082".toList, isHealthy := true }],
    current := 0, stickySessions := false }

theorem next_round_robin_order_witness :
    (∀ b ∈ c2Pool.backends, b.isHealthy = true) ∧ 0 < c2Pool.backends.length ∧
    c2Pool.backends.length < 2 ^ 64 ∧
    (nextCalls { backends := c2Pool.backends, current := 0, stickySessions := false }
        "1.2.3.4:5".toList c2Pool.backends.length).1 =
      (List.range c2Pool.backends.length).map
        (fun k => some ((k + 1) % c2Pool.backends.length)) :=
  ⟨by decide, by decide, by decide,
    next_round_robin_order c2Pool.backends "1.2.3.4:5".toList
      (by decide) (by decide) (by decide)⟩

/-! ## Claim C3: `Next` on an empty pool -/

/-- **C3 evaluation**: with zero backends, the round-robin branch of `Next`
does return "none available", but the sticky branch evaluates
`hash % len(backends)` with divisor zero — Go's integer division by zero, a
run-time panic — instead of returning `nil`.  The spec pins the zero-backend
behavior to "none available", so the sticky branch contradicts it. -/
theorem next_empty_pool_eval :
    BaseServerPool.Next { backends := [], current := 0, stickySessions := true }
        "1.2.3.4:80".toList = .error .integerDivideByZero ∧
    BaseServerPool.Next { backends := [], current := 0, stickySessions := false }
        "1.2.3.4:80".toList
      = .ok (none, { backends := [], current := 0, stickySessions := false }) := by
  exact ⟨rfl, rfl⟩

/-! ## Claim C9: sticky `Next` never modifies the pool -/

/-- The frame property of one `Next` call: if the call returns (does not
panic), the pool afterwards — cursor included — is exactly the pool before. -/
def nextPreservesPool (p : BaseServerPool) (addr : List Char) : Prop :=
  match p.Next addr with
  | .ok (_, p') => p' = p
  | .error _ => True

/-- **C9**: in sticky mode, `Next` leaves the round-robin cursor — and every
other field of the pool — unchanged. -/
theorem next_sticky_frame (p : BaseServerPool) (addr : List Char)
    (hs : p.stickySessions = true) : nextPreservesPool p addr := by
  unfold nextPreservesPool BaseServerPool.Next
  rw [if_pos hs]
  by_cases h0 : p.backends.length = 0
  · rw [dif_pos h0]
    exact trivial
  · rw [dif_neg h0]
    by_cases hb : (p.backends.get ⟨hashIp (getIpFromAddr addr) % p.backends.length,
        Nat.mod_lt _ (Nat.pos_of_ne_zero h0)⟩).isHealthy
    · rw [if_pos hb]
    · rw [if_neg hb]

/-- Witness for C9: a concrete sticky pool. -/
def c9Pool : BaseServerPool :=
  { backends := [{ urlHost := "localhost:8080".toList, isHealthy := true },
                 { urlHost := "localhost:8081".toList, isHealthy := false }],
    current := 7, stickySessions := true }

theorem next_sticky_frame_witness :
    c9Pool.stickySessions = true ∧ nextPreservesPool c9Pool "10.0.0.9:1234".toList :=
  ⟨rfl, next_sticky_frame c9Pool "10.0.0.9:1234".toList rfl⟩

/-! ## Claims C4 and C6: the health-probe loops -/

/-- How one iteration of `UDPServerPool.HealthCheck`'s probe loop ends. -/
inductive ProbeEnd where
  | sleepThenRepeat
  | nilConnFault
deriving DecidableEq, Repr

/-- One iteration of the probe loop of `UDPServerPool.HealthCheck`, as the
sequence of values successively stored into the backend's health flag by
`SetHealthy`, together with how the iteration ends.  The boolean arguments
are the outcomes of the network steps.  Following the source:

* resolve error: `SetHealthy(false)`, sleep, `continue`;
* dial error: `SetHealthy(false)` and — there being no `continue` — fall
  through to `conn.SetWriteDeadline` on a nil connection, a run-time fault;
* write step: `SetHealthy(false)` on error, else `SetHealthy(true)` —
  already here, before the response is read or validated;
* read step: `SetHealthy(false)` on error; on success `SetHealthy(true)`
  iff the sender address equals the backend's configured host:port and the
  payload is the literal `"pong"`, else `SetHealthy(false)`;

then the socket is closed and the loop sleeps for the interval. -/
def udpProbeHealthWrites
    (resolveOk dialOk writeOk readOk addrMatches payloadPong : Bool) :
    List Bool × ProbeEnd :=
  if !resolveOk then ([false], .sleepThenRepeat)
  else if !dialOk then ([false], .nilConnFault)
  else
    ([if writeOk then true else false,
      if readOk then (if addrMatches && payloadPong then true else false) else false],
     .sleepThenRepeat)

/-- **C6 counterexample**: resolve, dial, write and read all succeed but the
response arrives from the wrong source address; the probe nevertheless sets
the health flag to `true` (at the write step, before the address condition
was established and although it fails), only later overwriting it with
`false`. -/
theorem udp_probe_transient_true_cex :
    udpProbeHealthWrites true true true true false true
      = ([true, false], .sleepThenRepeat) := rfl

/-- **C6 amended**: after a successful resolve and dial, the probe first
stores the write outcome into the health flag — `true` on a successful
write, before any response validation — and then stores the read outcome:
`true` iff the read succeeded, the sender address matches, and the payload
is `"pong"`.  Only the probe's final value requires the response conditions;
the intermediate value does not, and the final value does not depend on the
write outcome. -/
theorem udp_probe_writes (w r a p : Bool) :
    udpProbeHealthWrites true true w r a p = ([w, r && (a && p)], .sleepThenRepeat) := by
  cases w <;> cases r <;> cases a <;> cases p <;> rfl

/-- The way a probe-loop iteration hands control on. -/
inductive LoopStep where
  | probeAgain
  | stopLoop
deriving DecidableEq, Repr

/-- One iteration of the per-backend goroutine of `ServerPool.HealthCheck`
(the TCP probe): dial the backend with a 2s timeout, store the dial outcome
in the health flag, `time.Sleep(10 * time.Second)`, loop.  The body contains
no `select` on — indeed no read of — the pool's `shutdown` channel, which is
why the result cannot depend on `_shutdownFired`. -/
def tcpHealthCheckIteration (b : Backend) (dialOk : Bool) (_shutdownFired : Bool) :
    Backend × LoopStep :=
  ({ b with isHealthy := dialOk }, .probeAgain)

/-- One iteration of the per-backend goroutine of `UDPServerPool.HealthCheck`:
run the probe of `udpProbeHealthWrites`, leaving the health flag at the
probe's last write, then `time.Sleep(p.healthcheckInterval)` and loop (or
die on the nil-connection fault).  As in the TCP loop, the body never reads
the `shutdown` channel. -/
def udpHealthCheckIteration (b : Backend)
    (resolveOk dialOk writeOk readOk addrMatches payloadPong : Bool)
    (_shutdownFired : Bool) : Backend × LoopStep :=
  ({ b with isHealthy :=
      ((udpProbeHealthWrites resolveOk dialOk writeOk readOk
          addrMatches payloadPong).1.getLast?).getD b.isHealthy },
   match (udpProbeHealthWrites resolveOk dialOk writeOk readOk
      addrMatches payloadPong).2 with
   | .sleepThenRepeat => .probeAgain
   | .nilConnFault => .stopLoop)

/-- **C4 counterexample**: with the shutdown signal already fired (last
argument `true`), an iteration of either cited probe loop still ends by
sleeping and scheduling a further probe — the claim says the loop performs
no further probe after shutdown. -/
theorem healthcheck_probes_after_shutdown_cex :
    (tcpHealthCheckIteration { urlHost := "localhost:8080".toList, isHealthy := false }
        true true).2 = .probeAgain ∧
    (udpHealthCheckIteration { urlHost := "localhost:8080".toList, isHealthy := false }
        true true true true true true true).2 = .probeAgain :=
  ⟨rfl, rfl⟩

/-- **C4 amended**: the waits in `ServerPool.HealthCheck` and
`UDPServerPool.HealthCheck` are unconditional sleeps: an iteration's result
is independent of the shutdown signal, the TCP loop always schedules a
further probe, and the UDP loop does too except when the dial fault kills
it — shutdown is never observed, neither during the sleep nor between
iterations.  (Only the `TCPServerPool.StartHealthChecks` variant elsewhere
in the repository selects on the shutdown channel during the wait.) -/
theorem healthcheck_wait_ignores_shutdown (b : Backend)
    (dialOk resolveOk udpDialOk writeOk readOk addrMatches payloadPong s : Bool) :
    tcpHealthCheckIteration b dialOk s = tcpHealthCheckIteration b dialOk false ∧
    (tcpHealthCheckIteration b dialOk s).2 = .probeAgain ∧
    udpHealthCheckIteration b resolveOk udpDialOk writeOk readOk addrMatches payloadPong s
      = udpHealthCheckIteration b resolveOk udpDialOk writeOk readOk
          addrMatches payloadPong false ∧
    (udpHealthCheckIteration b resolveOk udpDialOk writeOk readOk
        addrMatches payloadPong s).2
      = (if resolveOk && !udpDialOk then .stopLoop else .probeAgain) := by
  refine ⟨rfl, rfl, rfl, ?_⟩
  cases resolveOk <;> cases udpDialOk <;> rfl

/-! ## Claim C5: the UDP engine's bind address -/

/-- The state of `UDPServerPool` relevant to the bind claim: the embedded
base pool and the configured listen address, stored into the `addr` field
from `config.Addr` by `NewUDPServerPool`. -/
structure UDPServerPool where
  base : BaseServerPool
  addr : List Char
deriving Repr

/-- A Go `net.UDPAddr` as passed to `net.ListenUDP`: optional IP bytes and
a port (an absent IP means the unspecified address). -/
structure GoUDPAddr where
  ipBytes : Option (List Nat)
  port : Nat
deriving DecidableEq, Repr

/-- The bind address `UDPServerPool.Start` passes to `net.ListenUDP`: the
literal `&net.UDPAddr{Port: 9090}` — only the port field, set to the
constant 9090.  The configured address `p.addr` is not consulted. -/
def UDPServerPool.startBindAddr (_p : UDPServerPool) : GoUDPAddr :=
  { ipBytes := none, port := 9090 }

/-- **C5 evaluation**: `Start` binds UDP port 9090 on the unspecified
address for every pool, whatever listen address the accepted configuration
supplied; in particular a pool whose configuration carried `Addr: ":7777"`
is bound on 9090, not 7777 — the claim says the socket is bound on the
configured `Addr`. -/
theorem udp_start_bind_ignores_config :
    (∀ p : UDPServerPool, p.startBindAddr = { ipBytes := none, port := 9090 }) ∧
    (UDPServerPool.startBindAddr
        { base := { backends := [], current := 0, stickySessions := false },
          addr := ":7777".toList }).port = 9090 ∧ (9090 : Nat) ≠ 7777 :=
  ⟨fun _ => rfl, rfl, by decide⟩

/-! ## Claim C8: idempotent shutdown -/

/-- Lifecycle state shared by `ServerPool.Shutdown` and
`UDPServerPool.Shutdown`: whether the single-fire shutdown channel has been
closed, and (UDP) whether `Start` ever opened the socket (`p.conn != nil`). -/
structure LifecycleState where
  shutdownFired : Bool
  connExists : Bool
deriving DecidableEq, Repr

/-- Environment of one `Shutdown` call: whether closing the transport
resource errors, and whether the worker wait-group drains before the
caller's deadline. -/
structure ShutdownEnv where
  closeFails : Bool
  workersFinishInTime : Bool
deriving DecidableEq, Repr

/-- A `Shutdown` failure (Go `error`). -/
inductive ShutdownErr where
  | timeout
  | closeErr
deriving DecidableEq, Repr

/-- `ServerPool.Shutdown` (TCP): if the shutdown channel is already closed,
return nil at once; otherwise close the channel, close the listener (a
close error is only logged), and wait for the workers against the caller's
deadline.  Returns the error, the state after the call, and the number of
resource closes this call performed. -/
def tcpShutdown (s : LifecycleState) (env : ShutdownEnv) :
    Option ShutdownErr × LifecycleState × Nat :=
  if s.shutdownFired then (none, s, 0)
  else
    (if env.workersFinishInTime then none else some .timeout,
      { s with shutdownFired := true }, 1)

/-- `UDPServerPool.Shutdown`: as `tcpShutdown`, except the socket is closed
only if it exists, and a close error is returned to the caller before the
workers are awaited. -/
def udpShutdown (s : LifecycleState) (env : ShutdownEnv) :
    Option ShutdownErr × LifecycleState × Nat :=
  if s.shutdownFired then (none, s, 0)
  else
    if s.connExists ∧ env.closeFails then
      (some .closeErr, { s with shutdownFired := true }, 1)
    else
      (if env.workersFinishInTime then none else some .timeout,
        { s with shutdownFired := true }, if s.connExists then 1 else 0)

/-- **C8**: calling `Shutdown` a second time after a first call has
completed — whatever the first call's outcome — returns success (`nil`),
leaves the state unchanged, and closes no resource, for both the TCP and
the UDP engine: the single-fire channel check short-circuits the second
call. -/
theorem shutdown_idempotent (s : LifecycleState) (e1 e2 : ShutdownEnv) :
    tcpShutdown (tcpShutdown s e1).2.1 e2 = (none, (tcpShutdown s e1).2.1, 0) ∧
    udpShutdown (udpShutdown s e1).2.1 e2 = (none, (udpShutdown s e1).2.1, 0) := by
  obtain ⟨f, c⟩ := s
  obtain ⟨c1, w1⟩ := e1
  cases f <;> cases c <;> cases c1 <;> cases w1 <;> exact ⟨rfl, rfl⟩

/-! ## Claim C7: the pinned hash -/

/-- **C7**: `hashIp` is 32-bit FNV-1a over the raw bytes of the IP exactly
as `net.ParseIP` stores them (the 16-byte form, so an IPv4 literal hashes
as its IPv4-in-IPv6 mapped bytes), and hashing the literal IP
`192.168.1.100` reproduces the pinned regression value `354263838` of
`Test_hashIp`. -/
theorem hashIp_fnv1a_pinned :
    (∀ bytes : List Nat, hashIp (some bytes) = fnv1a32 bytes) ∧
    parseIP "192.168.1.100".toList
      = some [0, 0, 0, 0, 0, 0, 0, 0, 0, 0, 255, 255, 192, 168, 1, 100] ∧
    hashIp (parseIP "192.168.1.100".toList) = 354263838 :=
  ⟨fun _ => rfl, by decide, by decide⟩

/-! ## Claim C10: IPv6 clients are indistinguishable to sticky hashing -/

/-- A bracketed IPv6 transport-address string, as `net.TCPAddr`'s and
`net.UDPAddr`'s `String()` produce for every IPv6 client
(`"[" ++ v6literal ++ "]:" ++ port`): it starts with `'['`, and the text
before its first `':'` — `'['` followed by the leading hex digits of the
v6 literal — contains no `'.'` and no `'%'`. -/
def bracketedV6Form (addr : List Char) : Prop :=
  addr.head? = some '[' ∧
    ∀ c ∈ addr.takeWhile (fun c => c ≠ ':'), c ≠ '.' ∧ c ≠ '%'

instance (addr : List Char) : Decidable (bracketedV6Form addr) := by
  unfold bracketedV6Form
  infer_instance

theorem parseIPDispatch_none (s : List Char) :
    ∀ t : List Char, (∀ c ∈ t, c ≠ '.' ∧ c ≠ ':' ∧ c ≠ '%') →
      parseIPDispatch s t = none := by
  intro t
  induction t with
  | nil => intro _; rfl
  | cons c cs ih =>
    intro h
    obtain ⟨h1, h2, h3⟩ := h c (List.mem_cons_self c cs)
    rw [parseIPDispatch, if_neg h1, if_neg h2, if_neg h3]
    exact ih fun x hx => h x (List.mem_cons_of_mem c hx)

theorem getIpFromAddr_bracketed_none {addr : List Char} (h : bracketedV6Form addr) :
    getIpFromAddr addr = none := by
  obtain ⟨-, h2⟩ := h
  unfold getIpFromAddr parseIP
  apply parseIPDispatch_none
  intro c hc
  obtain ⟨hd, hp⟩ := h2 c hc
  have hcol := List.mem_takeWhile_imp hc
  refine ⟨hd, ?_, hp⟩
  simpa using hcol

/-- **C10**: for every bracketed IPv6 client address the source-IP
extraction splits at the first colon, fails to parse the non-IP token and
returns nil; consequently every such client hashes to FNV-1a of zero bytes
— the offset basis 2166136261 — and `Next` (in particular the sticky index
`hash % poolSize`) cannot distinguish any two IPv6 clients: with an
unchanged pool, sticky mode maps them all to the same backend. -/
theorem ipv6_clients_indistinguishable (addr1 addr2 : List Char) (p : BaseServerPool)
    (h1 : bracketedV6Form addr1) (h2 : bracketedV6Form addr2) :
    getIpFromAddr addr1 = none ∧
    hashIp (getIpFromAddr addr1) = 2166136261 ∧
    p.Next addr1 = p.Next addr2 := by
  have e1 := getIpFromAddr_bracketed_none h1
  have e2 := getIpFromAddr_bracketed_none h2
  refine ⟨e1, by rw [e1]; rfl, ?_⟩
  unfold BaseServerPool.Next
  simp only [e1, e2]

/-- Witness pool for C10: a two-backend sticky pool. -/
def c10Pool : BaseServerPool :=
  { backends := [{ urlHost := "localhost:8080".toList, isHealthy := true },
                 { urlHost := "localhost:8081".toList, isHealthy := true }],
    current := 0, stickySessions := true }

theorem ipv6_clients_indistinguishable_witness :
    bracketedV6Form "[::1]:5678".toList ∧
    bracketedV6Form "[2001:db8::1]:443".toList ∧
    (getIpFromAddr "[::1]:5678".toList = none ∧
      hashIp (getIpFromAddr "[::1]:5678".toList) = 2166136261 ∧
      c10Pool.Next "[::1]:5678".toList = c10Pool.Next "[2001:db8::1]:443".toList) :=
  ⟨by decide, by decide,
    ipv6_clients_indistinguishable "[::1]:5678".toList "[2001:db8::1]:443".toList c10Pool
      (by decide) (by decide)⟩

end NLB
